import Mathlib

/-!
Verification of the jss Korean→Uzbek(Latin) translation pipeline.

Shallow embedding of the text transforms, output validation, retry
orchestration and transport encoding found in `src/api/translate.ts` and the
handler variant `src/unnamed/part_001`.  Strings are modelled by Lean
`String` (a list of Unicode scalar values); the upstream LLM provider is
modelled as an oracle value per attempt (either a completion string or an
HTTP error), so the handler becomes a pure function of the two oracles.
-/

/-- The ASCII apostrophe character U+0027. -/
def asciiApos : Char := Char.ofNat 39

/-- Whitespace test modelling JavaScript `String.prototype.trim` on the
characters relevant to this pipeline (space, tab, LF, CR, VT, FF, NBSP,
BOM, LS, PS). -/
def wsChar (c : Char) : Bool :=
  c.toNat = 0x20 || c.toNat = 0x9 || c.toNat = 0xA || c.toNat = 0xD ||
  c.toNat = 0xB || c.toNat = 0xC || c.toNat = 0xA0 || c.toNat = 0xFEFF ||
  c.toNat = 0x2028 || c.toNat = 0x2029

/-- Drop leading and trailing whitespace, as JavaScript `.trim()`. -/
def trimChars (l : List Char) : List Char :=
  ((l.dropWhile wsChar).reverse.dropWhile wsChar).reverse

/-- String-level wrapper for `trimChars`. -/
def strTrim (s : String) : String := ⟨trimChars s.data⟩

/-- Models JavaScript `String.prototype.toLowerCase` on the alphabets this
code touches: ASCII letters and the Uzbek Cyrillic letters named by the
spec (Ё Ж Й Ч Ш Э Ю Я Ў Ғ Қ Ҳ); every other character is unchanged. -/
def jsLower (c : Char) : Char :=
  if 65 ≤ c.toNat ∧ c.toNat ≤ 90 then Char.ofNat (c.toNat + 32)
  else if c.toNat = 0x401 then Char.ofNat 0x451
  else if c.toNat = 0x416 then Char.ofNat 0x436
  else if c.toNat = 0x419 then Char.ofNat 0x439
  else if c.toNat = 0x427 then Char.ofNat 0x447
  else if c.toNat = 0x428 then Char.ofNat 0x448
  else if c.toNat = 0x42D then Char.ofNat 0x44D
  else if c.toNat = 0x42E then Char.ofNat 0x44E
  else if c.toNat = 0x42F then Char.ofNat 0x44F
  else if c.toNat = 0x40E then Char.ofNat 0x45E
  else if c.toNat = 0x492 then Char.ofNat 0x493
  else if c.toNat = 0x49A then Char.ofNat 0x49B
  else if c.toNat = 0x4B2 then Char.ofNat 0x4B3
  else c

/-- Lower-case a whole string (model of JS `toLowerCase`). -/
def jsLowerStr (s : String) : String := ⟨s.data.map jsLower⟩

/-- One character of the Hangul block tested by the source regex
`[ㄱ-힣]` (`hasHangul` in both handler files). -/
def hangulChar (c : Char) : Bool :=
  decide (0x3131 ≤ c.toNat) && decide (c.toNat ≤ 0xD7A3)

/-- `hasHangul` from `src/api/translate.ts` / `src/unnamed/part_001`:
true iff the string contains a code point in U+3131..U+D7A3. -/
def hasHangul (s : String) : Bool := s.data.any hangulChar

/-- Prefix test on character lists (model of `String.prototype.startsWith`
and of a left-anchored regex alternative). -/
def listStartsWith : List Char → List Char → Bool
  | [], _ => true
  | _ :: _, [] => false
  | p :: ps, c :: cs => p == c && listStartsWith ps cs

/-- The character U+003F QUESTION MARK. -/
def qmChar : Char := Char.ofNat 63

/-- Model of `t.includes("???")` from `isBadOutput` in
`src/unnamed/part_001`: true iff the list contains three consecutive
question marks. -/
def hasTripleQm : List Char → Bool
  | [] => false
  | [_] => false
  | [_, _] => false
  | c0 :: c1 :: c2 :: rest =>
    (c0 == qmChar && c1 == qmChar && c2 == qmChar) || hasTripleQm (c1 :: c2 :: rest)

/-- One of the four apostrophe variants in the source regex
`[‘’ʼʻ]` of `unifyApostrophe`. -/
def aposVariantChar (c : Char) : Bool :=
  c.toNat = 0x2018 || c.toNat = 0x2019 || c.toNat = 0x2BC || c.toNat = 0x2BB

/-- Per-character action of `unifyApostrophe`. -/
def unifyChar (c : Char) : Char := if aposVariantChar c then asciiApos else c

/-- `unifyApostrophe` from both handler files: replace every apostrophe
variant U+2018, U+2019, U+02BC, U+02BB by the ASCII apostrophe. -/
def unifyApostrophe (s : String) : String := ⟨s.data.map unifyChar⟩

/-- Model of JavaScript `s.replace(/p/g, rep)` for a single-character
pattern `p`: every occurrence of `p` is replaced by `rep`. -/
def replaceAll (pat : Char) (rep : List Char) (l : List Char) : List Char :=
  l.flatMap (fun c => if c = pat then rep else [c])

/-- The digraph substitution chain shared verbatim by `cyrToLatin` in
`src/api/translate.ts` and `src/unnamed/part_001`:
Ч→Ch, ч→ch, Ш→Sh, ш→sh, Ю→Yu, ю→yu, Я→Ya, я→ya, Ё→Yo, ё→yo,
applied in source order (innermost first). -/
def digraphSteps (l : List Char) : List Char :=
  replaceAll 'ё' ("yo".data)
    (replaceAll 'Ё' ("Yo".data)
      (replaceAll 'я' ("ya".data)
        (replaceAll 'Я' ("Ya".data)
          (replaceAll 'ю' ("yu".data)
            (replaceAll 'Ю' ("Yu".data)
              (replaceAll 'ш' ("sh".data)
                (replaceAll 'Ш' ("Sh".data)
                  (replaceAll 'ч' ("ch".data)
                    (replaceAll 'Ч' ("Ch".data) l)))))))))

/-- Upstream LLM oracle for one attempt: either the completion content
extracted from a success response, or a non-success HTTP response. -/
inductive Upstream where
  | success (content : String)
  | httpError (status : Nat) (body : String)

namespace Api

/-- `cyrToLatin` from `src/api/translate.ts`: falsy input returned as-is,
then the digraph chain, then `unifyApostrophe`. -/
def cyrToLatin (input : String) : String :=
  if input = ("") then input
  else unifyApostrophe ⟨digraphSteps input.data⟩

/-- `normalizeTargetLang` from `src/api/translate.ts`.  Both branches
return the single supported pair (code, label). -/
def normalizeTargetLang (input : String) : String × String :=
  let raw := jsLowerStr (strTrim input)
  let uzLatnAliases : List String :=
    ["uz-latn", "uzbek (latin)", "oʻzbek lotin", "o'zbek lotin"]
  if uzLatnAliases.contains raw then ("uz-Latn", "Uzbek (Latin)")
  else ("uz-Latn", "Uzbek (Latin)")

/-- The refusal/apology lexicon of the source regex
`/^(kechirasiz|uzr|sorry|i cannot|men bajara olmayman|impossible)/`. -/
def refusalLexicon : List String :=
  ["kechirasiz", "uzr", "sorry", "i cannot", "men bajara olmayman", "impossible"]

/-- `looksLikeApologyOrRefusal` from `src/api/translate.ts`: left-anchored
regex test on the trimmed, lower-cased text. -/
def looksLikeApologyOrRefusal (s : String) : Bool :=
  let t := jsLowerStr (strTrim s)
  refusalLexicon.any (fun p => listStartsWith p.data t.data)

/-- The attempt-1 system prompt of `src/api/translate.ts` (template
literal around `${targetCode}`, then `.trim()`). -/
def systemPrompt (targetCode : String) : String :=
  strTrim (("\nYou are a strict literal translator.\nTranslate ALL Korean text into Uzbek (Latin, ")
    ++ targetCode ++
    (").\n\nSTRICT RULES:\n- ALWAYS translate word-for-word, literally and faithfully.\n- NEVER refuse, NEVER apologize.\n- NEVER echo the Korean source.\n- NEVER alter style, tone, or meaning.\n- Korean (Hangul) characters MUST NEVER appear in the output.\n- Preserve line breaks, bullet points, punctuation, and symbols (e.g. ~~).\n- Output ONLY the Uzbek Latin translation, nothing else.\n"))

/-- The retry system prompt of `src/api/translate.ts`. -/
def retrySystemPrompt (targetCode : String) : String :=
  strTrim (("\nTranslate into Uzbek (Latin, ")
    ++ targetCode ++
    (").\nMUST always translate literally. Do not echo Korean. Hangul forbidden.\nDo not refuse, do not apologize. Output only translation.\n"))

/-- Normalization applied to a raw completion in `src/api/translate.ts`:
`unifyApostrophe(cyrToLatin(raw)).trim()`. -/
def normOut (raw : String) : String := strTrim (unifyApostrophe (cyrToLatin raw))

/-- Content the retry block of `src/api/translate.ts` extracts from the
second response: `retryData?.choices?.[0]?.message?.content ?? ""`.
The retry does not check `resp.ok`, so a non-success response (whose JSON
body has no `choices`) yields the empty string. -/
def retryContent : Upstream → String
  | .success c => c
  | .httpError _ _ => ("")

/-- Observable outcome of one run of the attempt/retry portion of the
`src/api/translate.ts` handler. -/
structure Outcome where
  status : Nat
  result : Option String
  detail : Option String
  calls : Nat
  prompts : List String
deriving DecidableEq

/-- The attempt/retry/response portion of `handler` in
`src/api/translate.ts` (after auth/body validation), as a function of the
request `targetLang` and the two upstream oracles.  Attempt 1 checks
`resp.ok` and surfaces the provider status with the response detail; the
retry block does not check it. -/
def handlerCore (targetLang : String) (a1 a2 : Upstream) : Outcome :=
  let tc := (normalizeTargetLang targetLang).1
  match a1 with
  | .httpError st body => ⟨st, none, some body, 1, [systemPrompt tc]⟩
  | .success c1 =>
    let r1 := normOut c1
    if looksLikeApologyOrRefusal r1 || hasHangul r1 then
      let r2 := normOut (retryContent a2)
      ⟨200, some r2, none, 2, [systemPrompt tc, retrySystemPrompt tc]⟩
    else
      ⟨200, some r1, none, 1, [systemPrompt tc]⟩

/-- Bearer-token extraction from `src/api/translate.ts`:
`auth.startsWith("Bearer ") ? auth.slice(7) : ""`. -/
def bearerToken (authHeader : String) : String :=
  if listStartsWith (("Bearer ").data) authHeader.data
  then ⟨authHeader.data.drop 7⟩ else ("")

/-- The client-token check of `handler` in `src/api/translate.ts`:
when `CLIENT_TOKEN` is set (a truthy, i.e. non-empty, string), the request
is authorized iff the trimmed presented token equals the trimmed
configured token; otherwise every request is authorized. -/
def checkAuth (clientToken : Option String) (authHeader : String) : Bool :=
  match clientToken with
  | none => true
  | some tok =>
    if tok = ("") then true
    else strTrim (bearerToken authHeader) == strTrim tok

end Api

namespace P1

/-- `cyrToLatin` from `src/unnamed/part_001`: the digraph chain only (no
apostrophe unification inside). -/
def cyrToLatin (input : String) : String :=
  if input = ("") then input else ⟨digraphSteps input.data⟩

/-- `isBadOutput` from `src/unnamed/part_001`: on the trimmed, lower-cased
text — Hangul present, or a `???` run, or a refusal prefix. -/
def isBadOutput (s : String) : Bool :=
  let t := jsLowerStr (strTrim s)
  hasHangul t || hasTripleQm t.data ||
  listStartsWith (("sorry").data) t.data ||
  listStartsWith (("uzr").data) t.data ||
  listStartsWith (("kechirasiz").data) t.data

/-- The deterministic local fallback string of `src/unnamed/part_001`. -/
def fallbackText : String := "Tarjima muvaffaqiyatsiz bajarildi (fallback)."

/-- Normalization applied to a raw completion in `src/unnamed/part_001`:
`unifyApostrophe(cyrToLatin(raw)).trim()`. -/
def normOut (raw : String) : String := strTrim (unifyApostrophe (cyrToLatin raw))

/-- Observable outcome of one run of the attempt/retry/fallback portion of
the `src/unnamed/part_001` handler.  `usedFallback` marks the branch that
substitutes `fallbackText` (the spec §3 flag); the HTTP 500 branches model
`requestTranslation` throwing on a non-ok response and the surrounding
`catch` answering 500. -/
structure Outcome where
  status : Nat
  result : Option String
  usedFallback : Bool
  calls : Nat
deriving DecidableEq

/-- The attempt/retry/fallback portion of `handler` in
`src/unnamed/part_001`, as a function of the two upstream oracles. -/
def handlerCore (a1 a2 : Upstream) : Outcome :=
  match a1 with
  | .httpError _ _ => ⟨500, none, false, 1⟩
  | .success c1 =>
    let r1 := normOut c1
    if isBadOutput r1 then
      match a2 with
      | .httpError _ _ => ⟨500, none, false, 2⟩
      | .success c2 =>
        let r2 := normOut c2
        if isBadOutput r2 || r2 = ("") then ⟨200, some fallbackText, true, 2⟩
        else ⟨200, some r2, false, 2⟩
    else if r1 = ("") then ⟨200, some fallbackText, true, 1⟩
    else ⟨200, some r1, false, 1⟩

end P1

/-- Standard base64 alphabet (RFC 4648), as used by Node
`Buffer.toString("base64")`. -/
def b64Chars : List Char :=
  ("ABCDEFGHIJKLMNOPQRSTUVWXYZabcdefghijklmnopqrstuvwxyz0123456789+/").data

/-- The base64 digit for a 6-bit value. -/
def b64Char (i : Nat) : Char := b64Chars.getD i asciiApos

/-- The base64 padding character U+003D. -/
def padChar : Char := Char.ofNat 61

/-- Index of a character in the base64 alphabet, `none` for non-alphabet
characters. -/
def b64Val (c : Char) : Option Nat := b64Chars.findIdx? (fun d => d == c)

/-- Base64 encoding of a byte list, three bytes to four digits, with
`=` padding, as Node `Buffer.toString("base64")`. -/
def b64Encode : List Nat → List Char
  | [] => []
  | [b0] => [b64Char (b0 / 4), b64Char (b0 % 4 * 16), padChar, padChar]
  | [b0, b1] =>
    [b64Char (b0 / 4), b64Char (b0 % 4 * 16 + b1 / 16), b64Char (b1 % 16 * 4), padChar]
  | b0 :: b1 :: b2 :: rest =>
    b64Char (b0 / 4) :: b64Char (b0 % 4 * 16 + b1 / 16) ::
    b64Char (b1 % 16 * 4 + b2 / 64) :: b64Char (b2 % 64) :: b64Encode rest

/-- Base64 decoding (inverse of `b64Encode`): four digits to three bytes,
with the two padded final-chunk forms; `none` on malformed input. -/
def b64Decode : List Char → Option (List Nat)
  | [] => some []
  | c0 :: c1 :: c2 :: c3 :: rest =>
    match b64Val c0, b64Val c1 with
    | some x0, some x1 =>
      if c2 = padChar then
        if c3 = padChar ∧ rest = [] then some [x0 * 4 + x1 / 16] else none
      else
        match b64Val c2 with
        | some x2 =>
          if c3 = padChar then
            if rest = [] then some [x0 * 4 + x1 / 16, x1 % 16 * 16 + x2 / 4] else none
          else
            match b64Val c3 with
            | some x3 =>
              (b64Decode rest).map
                (fun bs => (x0 * 4 + x1 / 16) :: (x1 % 16 * 16 + x2 / 4) :: (x2 % 4 * 64 + x3) :: bs)
            | none => none
        | none => none
    | _, _ => none
  | _ => none

/-- UTF-8 encoding of one Unicode scalar value (the byte sequence Node
`Buffer.from(s, "utf8")` produces for it). -/
def utf8EncodeChar (c : Char) : List Nat :=
  if c.toNat < 0x80 then [c.toNat]
  else if c.toNat < 0x800 then [0xC0 + c.toNat / 64, 0x80 + c.toNat % 64]
  else if c.toNat < 0x10000 then
    [0xE0 + c.toNat / 4096, 0x80 + c.toNat / 64 % 64, 0x80 + c.toNat % 64]
  else
    [0xF0 + c.toNat / 262144, 0x80 + c.toNat / 4096 % 64,
     0x80 + c.toNat / 64 % 64, 0x80 + c.toNat % 64]

/-- UTF-8 encoding of a character list. -/
def utf8Encode (l : List Char) : List Nat := l.flatMap utf8EncodeChar

mutual

/-- UTF-8 decoding of a byte list into characters (interpreting the bytes
as UTF-8, per the spec round-trip law); `none` on a malformed sequence.
A lead byte selects the number of continuation bytes; the tail helpers
consume the continuation bytes, accumulating the scalar value six bits at
a time. -/
def utf8Decode : List Nat → Option (List Char)
  | [] => some []
  | b :: rest =>
    if b < 0x80 then (utf8Decode rest).map (Char.ofNat b :: ·)
    else if b < 0xC0 then none
    else if b < 0xE0 then utf8Tail1 (b - 0xC0) rest
    else if b < 0xF0 then utf8Tail2 (b - 0xE0) rest
    else if b < 0xF8 then utf8Tail3 (b - 0xF0) rest
    else none
termination_by l => l.length

/-- Consume the final continuation byte of a multibyte UTF-8 sequence. -/
def utf8Tail1 (acc : Nat) : List Nat → Option (List Char)
  | b1 :: r2 =>
    if 0x80 ≤ b1 ∧ b1 < 0xC0 then
      (utf8Decode r2).map (Char.ofNat (acc * 64 + (b1 - 0x80)) :: ·)
    else none
  | [] => none
termination_by l => l.length

/-- Consume the last two continuation bytes of a UTF-8 sequence. -/
def utf8Tail2 (acc : Nat) : List Nat → Option (List Char)
  | b1 :: r2 =>
    if 0x80 ≤ b1 ∧ b1 < 0xC0 then utf8Tail1 (acc * 64 + (b1 - 0x80)) r2
    else none
  | [] => none
termination_by l => l.length

/-- Consume the three continuation bytes of a four-byte UTF-8 sequence. -/
def utf8Tail3 (acc : Nat) : List Nat → Option (List Char)
  | b1 :: r2 =>
    if 0x80 ≤ b1 ∧ b1 < 0xC0 then utf8Tail2 (acc * 64 + (b1 - 0x80)) r2
    else none
  | [] => none
termination_by l => l.length

end

/-- `toBase64Utf8` from both handler files:
`Buffer.from(s, "utf8").toString("base64")`, modelled as UTF-8 encoding
followed by base64 encoding. -/
def toBase64Utf8 (s : String) : String := ⟨b64Encode (utf8Encode s.data)⟩

/-- Inverse direction of the spec round-trip law: base64-decode the
transport string and interpret the resulting bytes as UTF-8. -/
def transportDecode (t : String) : Option String :=
  match b64Decode t.data with
  | some bs =>
    match utf8Decode bs with
    | some cs => some ⟨cs⟩
    | none => none
  | none => none

/-- The ten Cyrillic characters actually substituted by the digraph chain
of `cyrToLatin`. -/
def digraphCyr : List Char := ['Ч', 'ч', 'Ш', 'ш', 'Ю', 'ю', 'Я', 'я', 'Ё', 'ё']

/-- Per-character action of `Api.cyrToLatin` (digraph expansion followed
by apostrophe unification). -/
def cyrExpand (c : Char) : List Char :=
  if c = 'Ч' then ("Ch").data
  else if c = 'ч' then ("ch").data
  else if c = 'Ш' then ("Sh").data
  else if c = 'ш' then ("sh").data
  else if c = 'Ю' then ("Yu").data
  else if c = 'ю' then ("yu").data
  else if c = 'Я' then ("Ya").data
  else if c = 'я' then ("ya").data
  else if c = 'Ё' then ("Yo").data
  else if c = 'ё' then ("yo").data
  else [unifyChar c]

/-- The single-character substitution table asserted by the spec for
`cyrillicToLatin` (claim C2): Қ, Ғ, Ў, Ҳ, Й, Ж, Э and their lowercase
forms.  Stated from the spec for comparison with the source function,
which contains no such map. -/
def c2ClaimedSingles : List Char :=
  ['Қ', 'қ', 'Ғ', 'ғ', 'Ў', 'ў', 'Ҳ', 'ҳ', 'Й', 'й', 'Ж', 'ж', 'Э', 'э']

theorem unifyChar_idem (c : Char) : unifyChar (unifyChar c) = unifyChar c := by
  by_cases h : aposVariantChar c = true
  · simp only [unifyChar, if_pos h]
    decide
  · simp only [unifyChar, if_neg h]

theorem listStartsWith_iff (p : List Char) :
    ∀ l : List Char, listStartsWith p l = true ↔ ∃ r, l = p ++ r := by
  induction p with
  | nil =>
    intro l
    simp [listStartsWith]
  | cons x xs ih =>
    intro l
    cases l with
    | nil =>
      simp [listStartsWith]
    | cons c cs =>
      simp only [listStartsWith, Bool.and_eq_true, beq_iff_eq, ih, List.cons_append,
        List.cons.injEq]
      constructor
      · rintro ⟨rfl, r, rfl⟩
        exact ⟨r, rfl, rfl⟩
      · rintro ⟨r, rfl, rfl⟩
        exact ⟨rfl, r, rfl⟩

theorem listStartsWith_append (p l : List Char) : listStartsWith p (p ++ l) = true :=
  (listStartsWith_iff p (p ++ l)).mpr ⟨l, rfl⟩

theorem mem_dropWhile_of_not {c : Char} {p : Char → Bool} :
    ∀ {l : List Char}, c ∈ l → p c = false → c ∈ l.dropWhile p := by
  intro l
  induction l with
  | nil => intro h _; cases h
  | cons x xs ih =>
    intro hmem hp
    rw [List.dropWhile_cons]
    by_cases hx : p x = true
    · rw [if_pos hx]
      rcases List.mem_cons.mp hmem with rfl | hm
      · rw [hx] at hp; cases hp
      · exact ih hm hp
    · rw [if_neg hx]
      exact hmem

theorem mem_trimChars {c : Char} {l : List Char} (hmem : c ∈ l)
    (hp : wsChar c = false) : c ∈ trimChars l := by
  unfold trimChars
  exact List.mem_reverse.mpr
    (mem_dropWhile_of_not (List.mem_reverse.mpr (mem_dropWhile_of_not hmem hp)) hp)

/-- C9: `unifyApostrophes` replaces every occurrence of U+2019, U+2018,
U+02BB and U+02BC by the ASCII apostrophe, leaves all other characters
unchanged, and is idempotent: applying it twice equals applying it once. -/
theorem claim_C9 :
    (∀ s : String, (unifyApostrophe s).data = s.data.map unifyChar) ∧
    (∀ c : Char, aposVariantChar c = true → unifyChar c = asciiApos) ∧
    (∀ c : Char, aposVariantChar c = false → unifyChar c = c) ∧
    (∀ s : String, unifyApostrophe (unifyApostrophe s) = unifyApostrophe s) := by
  refine ⟨fun s => rfl, fun c h => by simp only [unifyChar, if_pos h],
    fun c h => by simp [unifyChar, h], fun s => ?_⟩
  show String.mk _ = String.mk _
  simp only [unifyApostrophe, List.map_map]
  congr 1
  exact List.map_congr_left (fun c _ => unifyChar_idem c)

/-- Witness for C9 at concrete inputs: U+2019 is a variant and maps to the
apostrophe, the letter a is not a variant and is fixed, and double
application on a mixed string equals single application. -/
theorem claim_C9_witness :
    aposVariantChar (Char.ofNat 0x2019) = true ∧
    unifyChar (Char.ofNat 0x2019) = asciiApos ∧
    aposVariantChar (Char.ofNat 97) = false ∧
    unifyChar (Char.ofNat 97) = Char.ofNat 97 ∧
    unifyApostrophe (unifyApostrophe ("xʼyʻz‘w’")) = unifyApostrophe ("xʼyʻz‘w’") :=
  ⟨by decide, claim_C9.2.1 _ (by decide), by decide, claim_C9.2.2.1 _ (by decide),
    claim_C9.2.2.2 ("xʼyʻz‘w’")⟩

/-- C7: refusal detection is a prefix test on the trimmed lower-cased
text — `looksLikeApologyOrRefusal` holds exactly when a lexicon member
(kechirasiz, uzr, sorry, i cannot, men bajara olmayman, impossible) is a
prefix of the normalized string; a mid-sentence mention is not flagged. -/
theorem claim_C7 :
    (∀ s : String, Api.looksLikeApologyOrRefusal s = true ↔
      ∃ p ∈ Api.refusalLexicon, ∃ r : List Char,
        (jsLowerStr (strTrim s)).data = p.data ++ r) ∧
    Api.looksLikeApologyOrRefusal ("Bu matn sorry degan gapni eslatadi") = false ∧
    Api.looksLikeApologyOrRefusal ("  Sorry, men bajara olmayman.") = true ∧
    Api.looksLikeApologyOrRefusal ("Kechirasiz.") = true ∧
    Api.looksLikeApologyOrRefusal ("uzr") = true ∧
    Api.looksLikeApologyOrRefusal ("Bu impossible emas") = false := by
  refine ⟨fun s => ?_, by decide, by decide, by decide, by decide, by decide⟩
  simp only [Api.looksLikeApologyOrRefusal, List.any_eq_true, listStartsWith_iff]

/-- C10: with a configured client token, authorization compares the
trimmed presented bearer token against the trimmed configured token —
401 exactly when the trimmed values differ — so surrounding whitespace on
the presented token is accepted. -/
theorem claim_C10 (tok hdr extra : String) (hne : tok ≠ ("")) :
    (Api.checkAuth (some tok) hdr = false ↔
      strTrim (Api.bearerToken hdr) ≠ strTrim tok) ∧
    (strTrim extra = strTrim tok →
      Api.checkAuth (some tok) (("Bearer ") ++ extra) = true) := by
  constructor
  · simp only [Api.checkAuth, if_neg hne]
    exact beq_eq_false_iff_ne
  · intro htr
    have hdrop : List.drop 7 ((("Bearer ") : String).data ++ extra.data) = extra.data := by
      have h7 : (("Bearer ") : String).data.length = 7 := by decide
      rw [← h7]
      exact List.drop_left _ _
    have hbt : Api.bearerToken (("Bearer ") ++ extra) = extra := by
      unfold Api.bearerToken
      rw [if_pos]
      · show String.mk _ = _
        rw [String.data_append, hdrop]
      · rw [String.data_append]
        exact listStartsWith_append _ _
    simp only [Api.checkAuth, if_neg hne, hbt, htr, beq_self_eq_true]

theorem charOfNatAdd32_small : ∀ v, v < 91 → (Char.ofNat (v + 32)).toNat < 0x3131 := by
  decide

theorem jsLower_small (c : Char) :
    jsLower c = c ∨ ((jsLower c).toNat < 0x3131 ∧ c.toNat < 0x3131) := by
  unfold jsLower
  by_cases h0 : 65 ≤ c.toNat ∧ c.toNat ≤ 90
  · rw [if_pos h0]
    exact Or.inr ⟨charOfNatAdd32_small c.toNat (by omega), by omega⟩
  rw [if_neg h0]
  by_cases h1 : c.toNat = 0x401
  · rw [if_pos h1]
    exact Or.inr ⟨by decide, by omega⟩
  rw [if_neg h1]
  by_cases h2 : c.toNat = 0x416
  · rw [if_pos h2]
    exact Or.inr ⟨by decide, by omega⟩
  rw [if_neg h2]
  by_cases h3 : c.toNat = 0x419
  · rw [if_pos h3]
    exact Or.inr ⟨by decide, by omega⟩
  rw [if_neg h3]
  by_cases h4 : c.toNat = 0x427
  · rw [if_pos h4]
    exact Or.inr ⟨by decide, by omega⟩
  rw [if_neg h4]
  by_cases h5 : c.toNat = 0x428
  · rw [if_pos h5]
    exact Or.inr ⟨by decide, by omega⟩
  rw [if_neg h5]
  by_cases h6 : c.toNat = 0x42D
  · rw [if_pos h6]
    exact Or.inr ⟨by decide, by omega⟩
  rw [if_neg h6]
  by_cases h7 : c.toNat = 0x42E
  · rw [if_pos h7]
    exact Or.inr ⟨by decide, by omega⟩
  rw [if_neg h7]
  by_cases h8 : c.toNat = 0x42F
  · rw [if_pos h8]
    exact Or.inr ⟨by decide, by omega⟩
  rw [if_neg h8]
  by_cases h9 : c.toNat = 0x40E
  · rw [if_pos h9]
    exact Or.inr ⟨by decide, by omega⟩
  rw [if_neg h9]
  by_cases h10 : c.toNat = 0x492
  · rw [if_pos h10]
    exact Or.inr ⟨by decide, by omega⟩
  rw [if_neg h10]
  by_cases h11 : c.toNat = 0x49A
  · rw [if_pos h11]
    exact Or.inr ⟨by decide, by omega⟩
  rw [if_neg h11]
  by_cases h12 : c.toNat = 0x4B2
  · rw [if_pos h12]
    exact Or.inr ⟨by decide, by omega⟩
  rw [if_neg h12]
  exact Or.inl rfl

theorem hangul_jsLower (c : Char) : hangulChar (jsLower c) = hangulChar c := by
  rcases jsLower_small c with h | ⟨h1, h2⟩
  · rw [h]
  · have e1 : hangulChar (jsLower c) = false := by
      simp only [hangulChar, Bool.and_eq_false_iff, decide_eq_false_iff_not]
      left; omega
    have e2 : hangulChar c = false := by
      simp only [hangulChar, Bool.and_eq_false_iff, decide_eq_false_iff_not]
      left; omega
    rw [e1, e2]

theorem hangul_not_ws (c : Char) (h : hangulChar c = true) : wsChar c = false := by
  simp only [hangulChar, Bool.and_eq_true, decide_eq_true_eq] at h
  simp only [wsChar, Bool.or_eq_false_iff, decide_eq_false_iff_not]
  omega

theorem hasHangul_of_lower_trim (s : String)
    (h : hasHangul (jsLowerStr (strTrim s)) = false) : hasHangul s = false := by
  cases hH : hasHangul s with
  | false => rfl
  | true =>
    exfalso
    simp only [hasHangul, List.any_eq_true] at hH
    obtain ⟨c, hmem, hhc⟩ := hH
    have h1 : c ∈ trimChars s.data := mem_trimChars hmem (hangul_not_ws c hhc)
    have h2 : jsLower c ∈ (jsLowerStr (strTrim s)).data :=
      List.mem_map.mpr ⟨c, h1, rfl⟩
    have h3 : hangulChar (jsLower c) = true := by rw [hangul_jsLower]; exact hhc
    have h4 : hasHangul (jsLowerStr (strTrim s)) = true := by
      simp only [hasHangul, List.any_eq_true]
      exact ⟨jsLower c, h2, h3⟩
    rw [h4] at h
    cases h

theorem not_bad_no_hangul (s : String) (h : P1.isBadOutput s = false) :
    hasHangul s = false := by
  apply hasHangul_of_lower_trim
  simp only [P1.isBadOutput, Bool.or_eq_false_iff] at h
  exact h.1.1.1.1

/-- Witness for C10: token secret, a wrong bearer token is rejected and a
whitespace-padded correct token is accepted. -/
theorem claim_C10_witness :
    (Api.checkAuth (some ("secret")) ("Bearer wrong") = false) ∧
    (Api.checkAuth (some ("secret")) (("Bearer ") ++ (" secret ")) = true) :=
  ⟨(claim_C10 ("secret") ("Bearer wrong") (" secret ") (by decide)).1.mpr (by decide),
    (claim_C10 ("secret") ("Bearer wrong") (" secret ") (by decide)).2 (by decide)⟩

theorem isBadOutput_empty : P1.isBadOutput ("") = false := by decide

/-- C1: every 200 response of the fallback-equipped handler
(`src/unnamed/part_001`) whose result was not produced by the local
fallback carries a translation text free of Hangul code points
U+3131..U+D7A3. -/
theorem claim_C1 (a1 a2 : Upstream) (t : String)
    (h200 : (P1.handlerCore a1 a2).status = 200)
    (hnf : (P1.handlerCore a1 a2).usedFallback = false)
    (ht : (P1.handlerCore a1 a2).result = some t) :
    hasHangul t = false := by
  cases a1 with
  | httpError st b => simp [P1.handlerCore] at h200
  | success c1 =>
    cases hb1 : P1.isBadOutput (P1.normOut c1) with
    | true =>
      cases a2 with
      | httpError st b => simp [P1.handlerCore, hb1] at h200
      | success c2 =>
        cases hb2 : P1.isBadOutput (P1.normOut c2) with
        | true => simp [P1.handlerCore, hb1, hb2] at hnf
        | false =>
          by_cases he2 : P1.normOut c2 = ("")
          · simp [P1.handlerCore, hb1, hb2, he2] at hnf
          · simp [P1.handlerCore, hb1, hb2, he2] at ht
            rw [← ht]
            exact not_bad_no_hangul _ hb2
    | false =>
      by_cases he1 : P1.normOut c1 = ("")
      · simp [P1.handlerCore, hb1, he1, isBadOutput_empty] at hnf
      · simp [P1.handlerCore, hb1, he1] at ht
        rw [← ht]
        exact not_bad_no_hangul _ hb1

/-- Witness for C1 at a concrete accepted translation. -/
theorem claim_C1_witness :
    (P1.handlerCore (.success ("Salom")) (.success ("x"))).status = 200 ∧
    (P1.handlerCore (.success ("Salom")) (.success ("x"))).usedFallback = false ∧
    (P1.handlerCore (.success ("Salom")) (.success ("x"))).result = some ("Salom") ∧
    hasHangul ("Salom") = false :=
  ⟨by decide, by decide, by decide,
    claim_C1 (.success ("Salom")) (.success ("x")) ("Salom")
      (by decide) (by decide) (by decide)⟩

/-- C3: both handler variants issue at most two upstream calls, and in the
fallback-equipped handler two defective attempts end in the deterministic
local fallback string with exactly two calls made (no third call). -/
theorem claim_C3 :
    (∀ tl a1 a2, (Api.handlerCore tl a1 a2).calls ≤ 2) ∧
    (∀ a1 a2, (P1.handlerCore a1 a2).calls ≤ 2) ∧
    (∀ c1 c2, P1.isBadOutput (P1.normOut c1) = true →
      P1.isBadOutput (P1.normOut c2) = true →
      P1.handlerCore (.success c1) (.success c2) =
        ⟨200, some P1.fallbackText, true, 2⟩) := by
  refine ⟨fun tl a1 a2 => ?_, fun a1 a2 => ?_, fun c1 c2 h1 h2 => ?_⟩
  · cases a1 with
    | httpError st b => simp [Api.handlerCore]
    | success c1 =>
      cases hd : (Api.looksLikeApologyOrRefusal (Api.normOut c1) ||
          hasHangul (Api.normOut c1)) with
      | true => simp [Api.handlerCore, hd]
      | false => simp [Api.handlerCore, hd]
  · cases a1 with
    | httpError st b => simp [P1.handlerCore]
    | success c1 =>
      cases hb1 : P1.isBadOutput (P1.normOut c1) with
      | true =>
        cases a2 with
        | httpError st b => simp [P1.handlerCore, hb1]
        | success c2 =>
          cases hb2 : P1.isBadOutput (P1.normOut c2) with
          | true => simp [P1.handlerCore, hb1, hb2]
          | false =>
            by_cases he2 : P1.normOut c2 = ("")
            · simp [P1.handlerCore, hb1, hb2, he2]
            · simp [P1.handlerCore, hb1, hb2, he2]
      | false =>
        by_cases he1 : P1.normOut c1 = ("")
        · simp [P1.handlerCore, hb1, he1, isBadOutput_empty]
        · simp [P1.handlerCore, hb1, he1]
  · simp [P1.handlerCore, h1, h2]

/-- Witness for C3: two Hangul-echo attempts yield the fallback with two
calls. -/
theorem claim_C3_witness :
    P1.isBadOutput (P1.normOut ("안녕")) = true ∧
    P1.handlerCore (.success ("안녕")) (.success ("안녕")) =
      ⟨200, some P1.fallbackText, true, 2⟩ :=
  ⟨by decide, claim_C3.2.2 ("안녕") ("안녕") (by decide) (by decide)⟩

set_option maxRecDepth 8000 in
/-- C4 (code bug evidence): attempt-1 upstream errors are surfaced with
the provider status and detail, but the retry of `src/api/translate.ts`
never checks `resp.ok` — a defective first completion followed by a
provider 503 yields a 200 success with the empty translation, converting
an upstream error into a success response. -/
theorem claim_C4_code_bug :
    (∀ tl st b a2, (Api.handlerCore tl (.httpError st b) a2).status = st ∧
      (Api.handlerCore tl (.httpError st b) a2).detail = some b ∧
      (Api.handlerCore tl (.httpError st b) a2).calls = 1) ∧
    Api.handlerCore ("uz-latn") (.success ("안녕")) (.httpError 503 ("oops")) =
      ⟨200, some (""), none, 2,
        [Api.systemPrompt ("uz-Latn"), Api.retrySystemPrompt ("uz-Latn")]⟩ := by
  refine ⟨fun tl st b a2 => ⟨rfl, rfl, rfl⟩, ?_⟩
  decide

/-- C5: when the first attempt of `src/api/translate.ts` is judged
defective, the handler makes exactly one retry (two calls total) and the
retry system prompt differs from the attempt-1 system prompt. -/
theorem claim_C5 (tl c1 : String) (a2 : Upstream)
    (hdef : (Api.looksLikeApologyOrRefusal (Api.normOut c1) ||
      hasHangul (Api.normOut c1)) = true) :
    (Api.handlerCore tl (.success c1) a2).calls = 2 ∧
    (Api.handlerCore tl (.success c1) a2).prompts =
      [Api.systemPrompt ("uz-Latn"), Api.retrySystemPrompt ("uz-Latn")] ∧
    Api.systemPrompt ("uz-Latn") ≠ Api.retrySystemPrompt ("uz-Latn") := by
  have hcode : (Api.normalizeTargetLang tl).1 = ("uz-Latn") := by
    simp only [Api.normalizeTargetLang]
    split <;> rfl
  refine ⟨?_, ?_, by decide⟩
  · simp [Api.handlerCore, hdef]
  · simp [Api.handlerCore, hdef, hcode]

/-- Witness for C5 at a Hangul-echo first attempt. -/
theorem claim_C5_witness :
    (Api.looksLikeApologyOrRefusal (Api.normOut ("안녕")) ||
      hasHangul (Api.normOut ("안녕"))) = true ∧
    (Api.handlerCore ("uz-latn") (.success ("안녕")) (.success ("Salom"))).calls = 2 ∧
    (Api.handlerCore ("uz-latn") (.success ("안녕")) (.success ("Salom"))).prompts =
      [Api.systemPrompt ("uz-Latn"), Api.retrySystemPrompt ("uz-Latn")] ∧
    Api.systemPrompt ("uz-Latn") ≠ Api.retrySystemPrompt ("uz-Latn") :=
  ⟨by decide,
    (claim_C5 ("uz-latn") ("안녕") (.success ("Salom")) (by decide)).1,
    (claim_C5 ("uz-latn") ("안녕") (.success ("Salom")) (by decide)).2.1,
    (claim_C5 ("uz-latn") ("안녕") (.success ("Salom")) (by decide)).2.2⟩

/-- C6 fails as stated: the code validator `isBadOutput` has no emptiness
rule — it classifies the empty and the all-whitespace string as not
defective — and the `src/api/translate.ts` handler accepts an empty
completion as a 200 ok result without retry. -/
theorem claim_C6_counterexample :
    P1.isBadOutput ("") = false ∧ P1.isBadOutput ("   ") = false ∧
    (Api.handlerCore ("uz-latn") (.success ("")) (.success ("Salom"))).status = 200 ∧
    (Api.handlerCore ("uz-latn") (.success ("")) (.success ("Salom"))).result = some ("") ∧
    (Api.handlerCore ("uz-latn") (.success ("")) (.success ("Salom"))).calls = 1 := by
  exact ⟨by decide, by decide, by decide, by decide, by decide⟩

/-- C6 amended: the validator has no emptiness rule, but in the
fallback-equipped handler (`src/unnamed/part_001`) emptiness is checked
separately after validation — an empty normalized completion is replaced
by the fallback, and no 200 response carries an empty translation text. -/
theorem claim_C6_amended :
    P1.isBadOutput ("") = false ∧ P1.isBadOutput ("   ") = false ∧
    (∀ c1 a2, P1.normOut c1 = ("") →
      P1.handlerCore (.success c1) a2 = ⟨200, some P1.fallbackText, true, 1⟩) ∧
    (∀ a1 a2 t, (P1.handlerCore a1 a2).status = 200 →
      (P1.handlerCore a1 a2).result = some t → t ≠ ("")) := by
  refine ⟨by decide, by decide, fun c1 a2 he => ?_, fun a1 a2 t h200 ht => ?_⟩
  · simp [P1.handlerCore, he, isBadOutput_empty]
  · cases a1 with
    | httpError st b => simp [P1.handlerCore] at h200
    | success c1 =>
      cases hb1 : P1.isBadOutput (P1.normOut c1) with
      | true =>
        cases a2 with
        | httpError st b => simp [P1.handlerCore, hb1] at h200
        | success c2 =>
          cases hb2 : P1.isBadOutput (P1.normOut c2) with
          | true =>
            simp [P1.handlerCore, hb1, hb2] at ht
            rw [← ht]; decide
          | false =>
            by_cases he2 : P1.normOut c2 = ("")
            · simp [P1.handlerCore, hb1, hb2, he2] at ht
              rw [← ht]; decide
            · simp [P1.handlerCore, hb1, hb2, he2] at ht
              rw [← ht]; exact he2
      | false =>
        by_cases he1 : P1.normOut c1 = ("")
        · simp [P1.handlerCore, hb1, he1, isBadOutput_empty] at ht
          rw [← ht]; decide
        · simp [P1.handlerCore, hb1, he1] at ht
          rw [← ht]; exact he1

/-- Witness for C6 amended: a whitespace-only completion normalizes to the
empty string and is replaced by the fallback after a single call. -/
theorem claim_C6_amended_witness :
    P1.normOut ("   ") = ("") ∧
    P1.handlerCore (.success ("   ")) (.success ("x")) =
      ⟨200, some P1.fallbackText, true, 1⟩ :=
  ⟨by decide, claim_C6_amended.2.2.1 ("   ") (.success ("x")) (by decide)⟩

/-- Per-character digraph expansion of the substitution chain. -/
def digraphExpand (c : Char) : List Char :=
  if c = 'Ч' then ("Ch").data
  else if c = 'ч' then ("ch").data
  else if c = 'Ш' then ("Sh").data
  else if c = 'ш' then ("sh").data
  else if c = 'Ю' then ("Yu").data
  else if c = 'ю' then ("yu").data
  else if c = 'Я' then ("Ya").data
  else if c = 'я' then ("ya").data
  else if c = 'Ё' then ("Yo").data
  else if c = 'ё' then ("yo").data
  else [c]

theorem replaceAll_single (p : Char) (r : List Char) (c : Char) :
    replaceAll p r [c] = if c = p then r else [c] := by
  simp [replaceAll]

theorem digraphSteps_append (l1 l2 : List Char) :
    digraphSteps (l1 ++ l2) = digraphSteps l1 ++ digraphSteps l2 := by
  simp [digraphSteps, replaceAll, List.flatMap_append]

theorem digraphSteps_singleton (c : Char) : digraphSteps [c] = digraphExpand c := by
  by_cases h1 : c = 'Ч'
  · subst h1; decide
  by_cases h2 : c = 'ч'
  · subst h2; decide
  by_cases h3 : c = 'Ш'
  · subst h3; decide
  by_cases h4 : c = 'ш'
  · subst h4; decide
  by_cases h5 : c = 'Ю'
  · subst h5; decide
  by_cases h6 : c = 'ю'
  · subst h6; decide
  by_cases h7 : c = 'Я'
  · subst h7; decide
  by_cases h8 : c = 'я'
  · subst h8; decide
  by_cases h9 : c = 'Ё'
  · subst h9; decide
  by_cases h10 : c = 'ё'
  · subst h10; decide
  simp [digraphSteps, replaceAll_single, digraphExpand, h1, h2, h3, h4, h5, h6, h7, h8, h9, h10]

theorem digraphSteps_eq_flatMap (l : List Char) :
    digraphSteps l = l.flatMap digraphExpand := by
  induction l with
  | nil => rfl
  | cons c l ih =>
    have h := digraphSteps_append [c] l
    rw [List.singleton_append] at h
    rw [h, digraphSteps_singleton, ih, List.flatMap_cons]

theorem cyrExpand_eq (c : Char) : (digraphExpand c).map unifyChar = cyrExpand c := by
  by_cases h1 : c = 'Ч'
  · subst h1; decide
  by_cases h2 : c = 'ч'
  · subst h2; decide
  by_cases h3 : c = 'Ш'
  · subst h3; decide
  by_cases h4 : c = 'ш'
  · subst h4; decide
  by_cases h5 : c = 'Ю'
  · subst h5; decide
  by_cases h6 : c = 'ю'
  · subst h6; decide
  by_cases h7 : c = 'Я'
  · subst h7; decide
  by_cases h8 : c = 'я'
  · subst h8; decide
  by_cases h9 : c = 'Ё'
  · subst h9; decide
  by_cases h10 : c = 'ё'
  · subst h10; decide
  simp [digraphExpand, cyrExpand, h1, h2, h3, h4, h5, h6, h7, h8, h9, h10]

theorem digraphSteps_map_unify (l : List Char) :
    (digraphSteps l).map unifyChar = l.flatMap cyrExpand := by
  rw [digraphSteps_eq_flatMap, List.map_flatMap]
  exact List.flatMap_congr (fun c _ => cyrExpand_eq c)

theorem cyrToLatin_data (s : String) :
    (Api.cyrToLatin s).data = s.data.flatMap cyrExpand := by
  by_cases h : s = ("")
  · subst h; rfl
  · have he : Api.cyrToLatin s = ⟨(digraphSteps s.data).map unifyChar⟩ := by
      unfold Api.cyrToLatin unifyApostrophe
      rw [if_neg h]
    rw [he, digraphSteps_map_unify]

/-- C2 fails as stated: `cyrToLatin` contains no single-character map —
the claimed table member Қ passes through unchanged, so the output can
contain a Cyrillic code point of the claimed substitution table. -/
theorem claim_C2_counterexample :
    Api.cyrToLatin ("Қ") = ("Қ") ∧ 'Қ' ∈ c2ClaimedSingles ∧
    'Қ' ∈ (Api.cyrToLatin ("Қ")).data :=
  ⟨by decide, by decide, by decide⟩

/-- C2 amended: `cyrToLatin` applies only the ordered digraph
substitutions Ч/ч→Ch/ch, Ш/ш→Sh/sh, Ю/ю→Yu/yu, Я/я→Ya/ya, Ё/ё→Yo/yo
(followed, in `src/api/translate.ts`, by apostrophe unification); there is
no single-character map, and Қ, Ғ, Ў, Ҳ, Й, Ж, Э and their lowercase
forms pass through unchanged.  The output contains no digraph-table
Cyrillic code point, and every character outside the digraph table and
the apostrophe-variant set passes through unchanged. -/
theorem claim_C2_amended :
    (∀ s : String, (Api.cyrToLatin s).data = s.data.flatMap cyrExpand) ∧
    (∀ c d : Char, d ∈ cyrExpand c → d ∉ digraphCyr) ∧
    (∀ c : Char, c ∉ digraphCyr → aposVariantChar c = false → cyrExpand c = [c]) ∧
    (∀ c, c ∈ c2ClaimedSingles → cyrExpand c = [c]) := by
  refine ⟨cyrToLatin_data, fun c d hd => ?_, fun c hnd hv => ?_, by decide⟩
  ·
    by_cases h1 : c = 'Ч'
    · subst h1; simp [cyrExpand] at hd; rcases hd with rfl | rfl <;> decide
    by_cases h2 : c = 'ч'
    · subst h2; simp [cyrExpand] at hd; rcases hd with rfl | rfl <;> decide
    by_cases h3 : c = 'Ш'
    · subst h3; simp [cyrExpand] at hd; rcases hd with rfl | rfl <;> decide
    by_cases h4 : c = 'ш'
    · subst h4; simp [cyrExpand] at hd; rcases hd with rfl | rfl <;> decide
    by_cases h5 : c = 'Ю'
    · subst h5; simp [cyrExpand] at hd; rcases hd with rfl | rfl <;> decide
    by_cases h6 : c = 'ю'
    · subst h6; simp [cyrExpand] at hd; rcases hd with rfl | rfl <;> decide
    by_cases h7 : c = 'Я'
    · subst h7; simp [cyrExpand] at hd; rcases hd with rfl | rfl <;> decide
    by_cases h8 : c = 'я'
    · subst h8; simp [cyrExpand] at hd; rcases hd with rfl | rfl <;> decide
    by_cases h9 : c = 'Ё'
    · subst h9; simp [cyrExpand] at hd; rcases hd with rfl | rfl <;> decide
    by_cases h10 : c = 'ё'
    · subst h10; simp [cyrExpand] at hd; rcases hd with rfl | rfl <;> decide
    simp [cyrExpand, h1, h2, h3, h4, h5, h6, h7, h8, h9, h10] at hd
    subst hd
    unfold unifyChar
    split
    · decide
    · simp [digraphCyr, h1, h2, h3, h4, h5, h6, h7, h8, h9, h10]
  · have hn : ¬(c = 'Ч' ∨ c = 'ч' ∨ c = 'Ш' ∨ c = 'ш' ∨ c = 'Ю' ∨ c = 'ю' ∨
        c = 'Я' ∨ c = 'я' ∨ c = 'Ё' ∨ c = 'ё') := by
      simpa [digraphCyr] using hnd
    push_neg at hn
    obtain ⟨n1, n2, n3, n4, n5, n6, n7, n8, n9, n10⟩ := hn
    simp [cyrExpand, n1, n2, n3, n4, n5, n6, n7, n8, n9, n10, unifyChar, hv]

/-- Witness for C2 amended at concrete inputs. -/
theorem claim_C2_amended_witness :
    (Api.cyrToLatin ("Чж‘")).data = ("Чж‘").data.flatMap cyrExpand ∧
    ('ж' ∉ digraphCyr) ∧ aposVariantChar 'ж' = false ∧ cyrExpand 'ж' = ['ж'] :=
  ⟨claim_C2_amended.1 ("Чж‘"), by decide, by decide,
    claim_C2_amended.2.2.1 'ж' (by decide) (by decide)⟩

theorem b64Val_b64Char : ∀ i, i < 64 → b64Val (b64Char i) = some i := by
  decide

theorem b64Char_ne_pad : ∀ i, i < 64 → ¬ b64Char i = padChar := by
  decide

theorem b64_rt : ∀ bs : List Nat, (∀ b ∈ bs, b < 256) →
    b64Decode (b64Encode bs) = some bs := by
  intro bs
  induction bs using b64Encode.induct with
  | case1 => intro _; rfl
  | case2 b0 =>
    intro h
    have hb0 := h b0 (by simp)
    have e0 := b64Val_b64Char (b0 / 4) (by omega)
    have e1 := b64Val_b64Char (b0 % 4 * 16) (by omega)
    simp only [b64Encode, b64Decode, e0, e1, if_pos rfl, and_self,
      if_pos (And.intro rfl rfl)]
    simp
    omega
  | case3 b0 b1 =>
    intro h
    have hb0 := h b0 (by simp)
    have hb1 := h b1 (by simp)
    have e0 := b64Val_b64Char (b0 / 4) (by omega)
    have e1 := b64Val_b64Char (b0 % 4 * 16 + b1 / 16) (by omega)
    have e2 := b64Val_b64Char (b1 % 16 * 4) (by omega)
    have ne2 := b64Char_ne_pad (b1 % 16 * 4) (by omega)
    simp only [b64Encode, b64Decode, e0, e1, e2, if_neg ne2, if_pos rfl]
    simp
    omega
  | case4 b0 b1 b2 rest ih =>
    intro h
    have hb0 := h b0 (by simp)
    have hb1 := h b1 (by simp)
    have hb2 := h b2 (by simp)
    have e0 := b64Val_b64Char (b0 / 4) (by omega)
    have e1 := b64Val_b64Char (b0 % 4 * 16 + b1 / 16) (by omega)
    have e2 := b64Val_b64Char (b1 % 16 * 4 + b2 / 64) (by omega)
    have e3 := b64Val_b64Char (b2 % 64) (by omega)
    have ne2 := b64Char_ne_pad (b1 % 16 * 4 + b2 / 64) (by omega)
    have ne3 := b64Char_ne_pad (b2 % 64) (by omega)
    have hrest : b64Decode (b64Encode rest) = some rest :=
      ih (fun b hb => h b (by simp [hb]))
    simp only [b64Encode, b64Decode, e0, e1, e2, e3, if_neg ne2, if_neg ne3, hrest]
    simp
    refine ⟨by omega, by omega, by omega⟩

theorem char_toNat_lt (c : Char) : c.toNat < 1114112 := by
  have h := c.valid
  simp only [UInt32.isValidChar, Nat.isValidChar] at h
  simp only [Char.toNat]
  omega

theorem utf8EncodeChar_lt (c : Char) : ∀ b ∈ utf8EncodeChar c, b < 256 := by
  intro b hb
  have hv := char_toNat_lt c
  unfold utf8EncodeChar at hb
  repeat' split at hb
  all_goals simp only [List.mem_cons, List.not_mem_nil, or_false] at hb
  all_goals rcases hb with rfl | rfl | rfl | rfl <;> omega

theorem utf8Encode_lt (l : List Char) : ∀ b ∈ utf8Encode l, b < 256 := by
  intro b hb
  simp only [utf8Encode, List.mem_flatMap] at hb
  obtain ⟨c, _, hc⟩ := hb
  exact utf8EncodeChar_lt c b hc

theorem utf8Decode_one (b : Nat) (rest : List Nat) (h : b < 0x80) :
    utf8Decode (b :: rest) = (utf8Decode rest).map (Char.ofNat b :: ·) := by
  rw [utf8Decode]
  rw [if_pos h]

theorem utf8Decode_two (b b1 : Nat) (rest : List Nat)
    (hb : 0xC0 ≤ b) (hb' : b < 0xE0) (h1 : 0x80 ≤ b1) (h1' : b1 < 0xC0) :
    utf8Decode (b :: b1 :: rest) =
      (utf8Decode rest).map (Char.ofNat ((b - 0xC0) * 64 + (b1 - 0x80)) :: ·) := by
  rw [utf8Decode, if_neg (by omega), if_neg (by omega), if_pos (by omega),
    utf8Tail1, if_pos ⟨h1, h1'⟩]

theorem utf8_chunk (c : Char) (rest : List Nat) :
    utf8Decode (utf8EncodeChar c ++ rest) = (utf8Decode rest).map (c :: ·) := by
  have hv := char_toNat_lt c
  by_cases h1 : c.toNat < 0x80
  · have he : utf8EncodeChar c = [c.toNat] := by
      unfold utf8EncodeChar; rw [if_pos h1]
    rw [he]
    show utf8Decode (c.toNat :: rest) = _
    rw [utf8Decode_one _ _ h1, Char.ofNat_toNat]
  · by_cases h2 : c.toNat < 0x800
    · have he : utf8EncodeChar c = [0xC0 + c.toNat / 64, 0x80 + c.toNat % 64] := by
        unfold utf8EncodeChar; rw [if_neg h1, if_pos h2]
      rw [he]
      show utf8Decode ((0xC0 + c.toNat / 64) :: (0x80 + c.toNat % 64) :: rest) = _
      rw [utf8Decode_two _ _ _ (by omega) (by omega) (by omega) (by omega)]
      have ha : (0xC0 + c.toNat / 64 - 0xC0) * 64 + (0x80 + c.toNat % 64 - 0x80)
          = c.toNat := by omega
      rw [ha, Char.ofNat_toNat]
    · by_cases h3 : c.toNat < 0x10000
      · have he : utf8EncodeChar c =
            [0xE0 + c.toNat / 4096, 0x80 + c.toNat / 64 % 64, 0x80 + c.toNat % 64] := by
          unfold utf8EncodeChar; rw [if_neg h1, if_neg h2, if_pos h3]
        rw [he]
        show utf8Decode ((0xE0 + c.toNat / 4096) :: (0x80 + c.toNat / 64 % 64) ::
          (0x80 + c.toNat % 64) :: rest) = _
        rw [utf8Decode, if_neg (by omega), if_neg (by omega), if_neg (by omega),
          if_pos (by omega), utf8Tail2, if_pos (by omega), utf8Tail1,
          if_pos (by omega)]
        have ha : ((0xE0 + c.toNat / 4096 - 0xE0) * 64 +
            (0x80 + c.toNat / 64 % 64 - 0x80)) * 64 + (0x80 + c.toNat % 64 - 0x80)
            = c.toNat := by omega
        rw [ha, Char.ofNat_toNat]
      · have he : utf8EncodeChar c =
            [0xF0 + c.toNat / 262144, 0x80 + c.toNat / 4096 % 64,
             0x80 + c.toNat / 64 % 64, 0x80 + c.toNat % 64] := by
          unfold utf8EncodeChar; rw [if_neg h1, if_neg h2, if_neg h3]
        rw [he]
        show utf8Decode ((0xF0 + c.toNat / 262144) :: (0x80 + c.toNat / 4096 % 64) ::
          (0x80 + c.toNat / 64 % 64) :: (0x80 + c.toNat % 64) :: rest) = _
        rw [utf8Decode, if_neg (by omega), if_neg (by omega), if_neg (by omega),
          if_neg (by omega), if_pos (by omega), utf8Tail3, if_pos (by omega),
          utf8Tail2, if_pos (by omega), utf8Tail1, if_pos (by omega)]
        have ha : (((0xF0 + c.toNat / 262144 - 0xF0) * 64 +
            (0x80 + c.toNat / 4096 % 64 - 0x80)) * 64 +
            (0x80 + c.toNat / 64 % 64 - 0x80)) * 64 + (0x80 + c.toNat % 64 - 0x80)
            = c.toNat := by omega
        rw [ha, Char.ofNat_toNat]

theorem utf8_rt (l : List Char) : utf8Decode (utf8Encode l) = some l := by
  induction l with
  | nil =>
    show utf8Decode [] = some []
    rw [utf8Decode]
  | cons c l ih =>
    show utf8Decode ((c :: l).flatMap utf8EncodeChar) = _
    rw [List.flatMap_cons]
    rw [show l.flatMap utf8EncodeChar = utf8Encode l from rfl]
    rw [utf8_chunk, ih]
    rfl

/-- C8: base64-decoding `toBase64Utf8 s` and interpreting the resulting
bytes as UTF-8 reproduces exactly `s`, for every Unicode string,
including strings with embedded newlines and non-ASCII characters. -/
theorem claim_C8 (s : String) : transportDecode (toBase64Utf8 s) = some s := by
  have h1 : b64Decode (b64Encode (utf8Encode s.data)) = some (utf8Encode s.data) :=
    b64_rt _ (utf8Encode_lt s.data)
  have h2 : utf8Decode (utf8Encode s.data) = some s.data := utf8_rt s.data
  simp only [transportDecode,
    show (toBase64Utf8 s).data = b64Encode (utf8Encode s.data) from rfl, h1, h2]
